import Mathlib

/-!
# Shallow embedding of `pgp-dump` (src/pgp-dump/src/main.rs)

An interactive terminal inspector for PGP packets.  The embedding covers:

* the `Action` type and the reducer `App.update`;
* the application state `App` and its constructor `App.new`;
* the navigation state (`TreeState` with its key operations) — the
  `tui_tree_widget` crate is an external dependency whose source is not part
  of this repository, so its operations are modelled from the specification
  (each such definition carries a `Modelled from the spec:` doc comment);
* the detail-pane text computed in `App.draw` (lines 88–92);
* the per-tick input mapping of `App.handle_event` (lines 126–156);
* one iteration of the `run` loop body (lines 177–189), with the channel
  receive result made explicit;
* the terminal-transition trace of `main` on the missing-argument path
  (lines 196–201 together with `initialize_panic_handler`, lines 7–13,
  `startup`, lines 15–19, and `shutdown`, lines 21–25).
-/

namespace PgpDump

/-- The `Action` enum (source lines 159–167): a discrete unit of user
intent. -/
inductive Action where
  | left
  | right
  | down
  | up
  | quit
  | none
deriving DecidableEq, Repr

/-- Modelled from the spec: an Entity produced by the external `pgp` parser
(`pgp::packet::Packet`, not part of this repository) is opaque, with a short
label (its tag, shown in the tree pane via `format!("{:?}", packet.tag())`)
and a full structured representation (shown in the detail pane via
`format!("{:#?}", packet)`). -/
structure Packet where
  tagName : String
  debugRepr : String
deriving DecidableEq, Repr

/-- A node of the tree widget.  The app only ever builds leaves
(`TreeItem::new_leaf(i, name)` in `App::new`, line 41), but the widget itself
is a general tree, so children are kept in the model. -/
inductive TreeItem where
  | mk (identifier : Nat) (text : String) (children : List TreeItem)

def TreeItem.identifier : TreeItem → Nat
  | .mk i _ _ => i

def TreeItem.text : TreeItem → String
  | .mk _ t _ => t

def TreeItem.children : TreeItem → List TreeItem
  | .mk _ _ c => c

/-- Modelled from the spec: the selection/expansion state of the tree widget
(`tui_tree_widget::TreeState<usize>`, external): "an ordered path of
identifiers describing the currently highlighted node at each depth, plus,
per node, an expanded/collapsed flag"; an empty path means nothing
selected. -/
structure TreeState where
  selected : List Nat
  opened : List (List Nat)
deriving DecidableEq, Repr

/-- `TreeState::default()` (line 47): empty path, all nodes collapsed. -/
def TreeState.default : TreeState := ⟨[], []⟩

mutual

/-- Modelled from the spec: the paths of the nodes of one tree that are
visible, "skipping the descendants of any currently collapsed node". -/
def TreeItem.visiblePaths (opened : List (List Nat)) (pre : List Nat) :
    TreeItem → List (List Nat)
  | .mk ident _ children =>
    let path := pre ++ [ident]
    path :: (if path ∈ opened then TreeItem.visiblePathsList opened path children else [])

/-- Modelled from the spec: the visible paths of a forest, in order. -/
def TreeItem.visiblePathsList (opened : List (List Nat)) (pre : List Nat) :
    List TreeItem → List (List Nat)
  | [] => []
  | it :: rest =>
    TreeItem.visiblePaths opened pre it ++ TreeItem.visiblePathsList opened pre rest

end

/-- Look a path up in a forest, returning the node it resolves to, if any. -/
def nodeAtList (items : List TreeItem) : List Nat → Option TreeItem
  | [] => Option.none
  | i :: rest =>
    match items.find? (fun it => it.identifier = i) with
    | some it => if rest = [] then some it else nodeAtList it.children rest
    | Option.none => Option.none

/-- Modelled from the spec: selecting the visible node at a given index,
clamping at the last visible node ("selection simply clamps at the
first/last visible node"); with no visible nodes the selection is empty. -/
def TreeState.selectVisibleIndex (s : TreeState) (visible : List (List Nat))
    (newIndex : Nat) : TreeState :=
  { s with selected := visible.getD (min newIndex (visible.length - 1)) [] }

/-- Modelled from the spec: `Down` moves "the current selection to the next
visible node"; with no current selection the first visible node is selected
(spec scenario: selection empty, `Down` selects 0). -/
def TreeState.key_down (s : TreeState) (items : List TreeItem) : TreeState :=
  match (TreeItem.visiblePathsList s.opened [] items).findIdx?
      (fun p => p = s.selected) with
  | some i => s.selectVisibleIndex (TreeItem.visiblePathsList s.opened [] items) (i + 1)
  | Option.none => s.selectVisibleIndex (TreeItem.visiblePathsList s.opened [] items) 0

/-- Modelled from the spec: `Up` moves "the current selection to the previous
visible node", clamping at the first; with no current selection the last
visible node is selected. -/
def TreeState.key_up (s : TreeState) (items : List TreeItem) : TreeState :=
  match (TreeItem.visiblePathsList s.opened [] items).findIdx?
      (fun p => p = s.selected) with
  | some i => s.selectVisibleIndex (TreeItem.visiblePathsList s.opened [] items) (i - 1)
  | Option.none =>
    s.selectVisibleIndex (TreeItem.visiblePathsList s.opened [] items)
      ((TreeItem.visiblePathsList s.opened [] items).length - 1)

/-- Modelled from the spec: `Left`: "if the selected node is expanded,
collapse it; otherwise move selection to its parent if one exists; no-op on
a root leaf with no parent". -/
def TreeState.key_left (s : TreeState) : TreeState :=
  if s.selected ∈ s.opened then
    { s with opened := s.opened.erase s.selected }
  else if 2 ≤ s.selected.length then
    { s with selected := s.selected.dropLast }
  else
    s

/-- Modelled from the spec: `Right`: "if the selected node has children and
is collapsed, expand it; otherwise move selection to its first child if one
exists; no-op on a leaf with no children". -/
def TreeState.key_right (s : TreeState) (items : List TreeItem) : TreeState :=
  match nodeAtList items s.selected with
  | some it =>
    match it.children with
    | [] => s
    | c :: _ =>
      if s.selected ∈ s.opened then
        { s with selected := s.selected ++ [c.identifier] }
      else
        { s with opened := s.selected :: s.opened }
  | Option.none => s

/-- The `App` struct (lines 27–33).  The action channel's sending half
(`action_tx`) is modelled separately (see `tickSend`); the remaining fields
are embedded directly. -/
structure App where
  should_quit : Bool
  state : TreeState
  items : List TreeItem
  packets : List Packet

/-- `App::new` (lines 36–51): one leaf item per packet, with identifier `i`
(the enumeration index) and the packet's tag as its text. -/
def App.new (packets : List Packet) : App :=
  { should_quit := false
    state := TreeState.default
    items := packets.enum.map (fun p => TreeItem.mk p.1 p.2.tagName [])
    packets := packets }

/-- `App::update` (lines 106–124): the reducer.  It returns the next state
together with the chained Action, which is always `Action::None`
(line 123). -/
def App.update (app : App) (msg : Action) : App × Action :=
  match msg with
  | .quit => ({ app with should_quit := true }, Action.none)
  | .up => ({ app with state := app.state.key_up app.items }, Action.none)
  | .down => ({ app with state := app.state.key_down app.items }, Action.none)
  | .left => ({ app with state := app.state.key_left }, Action.none)
  | .right => ({ app with state := app.state.key_right app.items }, Action.none)
  | .none => (app, Action.none)

/-- Folding a list of Actions through the reducer, discarding the chained
Action (as the `run` loop does). -/
def App.applyAll (app : App) (msgs : List Action) : App :=
  msgs.foldl (fun a m => (a.update m).1) app

/-- The detail pane's text, from `App::draw` lines 88–92: the last element of
the selection path indexes `packets`; no selection yields the placeholder.
The source indexes with `self.packets[*i]`, which panics out of range — the
panic is modelled as `Option.none`. -/
def App.detailText (app : App) : Option String :=
  match app.state.selected.getLast? with
  | some i => (app.packets[i]?).map Packet.debugRepr
  | Option.none => some "Nothing selected"

/-- Modelled from the spec: `Tree::new` (called in `App::draw`, line 63, in
the external `tui_tree_widget` crate) succeeds exactly when "identifiers are
unique across the whole sequence — construction of the tree view fails if
this invariant is violated"; the `expect` on line 64 panics on failure. -/
def treeNewOk (items : List TreeItem) : Prop :=
  (items.map TreeItem.identifier).Nodup

/-! ## The `run` loop (lines 169–194)

One iteration of the loop body (lines 177–189).  Drawing does not change the
selection/expansion state, the items or the packets, so it has no effect on
the embedded state.  The result of `action_rx.recv().await` is made explicit:
`some a` when an Action arrives, `Option.none` when the channel is closed
(every sender dropped).  The iteration returns the new app state and whether
the loop breaks (`true` = the `break` on line 187 runs). -/

/-- One iteration of the `run` loop body: apply the received Action if there
is one (`if let Some(action) = action_rx.recv().await`, line 182), then test
`app.should_quit` (line 186). -/
def runIter (app : App) (recvd : Option Action) : App × Bool :=
  let app1 := match recvd with
    | some a => (app.update a).1
    | Option.none => app
  (app1, app1.should_quit)

/-! ## `main` and the terminal lifecycle (lines 7–25, 196–211) -/

/-- A terminal mode transition command issued by the process. -/
inductive TermOp where
  | enableRaw
  | enterAltScreen
  | leaveAltScreen
  | disableRaw
deriving DecidableEq, Repr

/-- `startup` (lines 15–19): enable raw mode, then enter the alternate
screen. -/
def startupOps : List TermOp := [TermOp.enableRaw, TermOp.enterAltScreen]

/-- `shutdown` (lines 21–25): leave the alternate screen, then disable raw
mode. -/
def shutdownOps : List TermOp := [TermOp.leaveAltScreen, TermOp.disableRaw]

/-- Outcome of a run of `main` that terminates during startup: the terminal
transitions issued, in order, and whether the process terminated abnormally
(panic; non-zero exit status). -/
structure ExitInfo where
  termTrace : List TermOp
  abnormal : Bool
deriving DecidableEq, Repr

/-- The startup phase of `main` (lines 196–201).  `initialize_panic_handler`
(lines 7–13) is called first; the installed hook calls `shutdown().unwrap()`
before re-raising any panic.  Then `std::env::args().nth(1)` is read
(`args.get? 1` — index 0 is the program name) and `expect("missing file")`
panics when it is absent: the hook issues `shutdownOps` and the process
terminates abnormally.  When the argument is present, `main` continues to
file I/O, parsing and the interactive session, which are beyond the
missing-argument path modelled here: the result is `Option.none`. -/
def mainStartup (args : List String) : Option ExitInfo :=
  match args.get? 1 with
  | Option.none => some { termTrace := shutdownOps, abnormal := true }
  | some _ => Option.none

/-! ## Input Capture (`App::handle_event`, lines 126–156) -/

/-- The subset of `crossterm::event::KeyCode` the mapping distinguishes:
the wildcard arm on line 140 collapses every other code. -/
inductive KeyCode where
  | char (c : Char)
  | left
  | right
  | down
  | up
  | otherKey
deriving DecidableEq, Repr

/-- `crossterm::event::KeyEventKind`. -/
inductive KeyEventKind where
  | press
  | release
  | repeatKind
deriving DecidableEq, Repr

/-- A terminal input event: a key event with its kind and code, or any
non-key event (resize, mouse, …). -/
inductive Event where
  | key (kind : KeyEventKind) (code : KeyCode)
  | nonKey
deriving DecidableEq, Repr

/-- The key-code match of lines 134–141: `'q'` maps to `Quit`, the four
arrows to their Actions, anything else to `None`. -/
def actionOfCode : KeyCode → Action
  | .char c => if c = 'q' then Action.quit else Action.none
  | .left => Action.left
  | .right => Action.right
  | .down => Action.down
  | .up => Action.up
  | .otherKey => Action.none

/-- One tick of the capture loop (lines 131–150): the polled event is
`Option.none` when no event arrives within the 250 ms interval; a key event
is mapped only when its kind is `Press` (line 133); everything else yields
`Action::None`. -/
def tickAction : Option Event → Action
  | some (.key kind code) =>
    if kind = KeyEventKind.press then actionOfCode code else Action.none
  | some .nonKey => Action.none
  | Option.none => Action.none

/-- One tick's effect on the channel (line 151): exactly one Action is sent,
appended to the in-flight queue. -/
def tickSend (ev : Option Event) (chan : List Action) : List Action :=
  chan ++ [tickAction ev]

/-- The number of rows the tree pane shows: the visible items of the
widget. -/
def App.visibleCount (app : App) : Nat :=
  (TreeItem.visiblePathsList app.state.opened [] app.items).length

/-- Selection well-formedness: the selection path is empty or a single
identifier below the packet count (the spec invariant: "the path, if
non-empty, always resolves to an entity present in the current item
model"). -/
def App.selOk (app : App) : Prop :=
  app.state.selected = [] ∨
    ∃ i, i < app.packets.length ∧ app.state.selected = [i]

/-- The invariant the run loop maintains: the items are exactly the leaves
`App.new` builds from the packets, and the selection is well-formed. -/
def App.wf (app : App) : Prop :=
  app.items = (App.new app.packets).items ∧ app.selOk

/-! ## Helper lemmas -/

theorem visiblePaths_leaf (opened : List (List Nat)) (pre : List Nat)
    (ident : Nat) (t : String) :
    TreeItem.visiblePaths opened pre (TreeItem.mk ident t []) = [pre ++ [ident]] := by
  simp [TreeItem.visiblePaths, TreeItem.visiblePathsList]

theorem visiblePathsList_leaves (opened : List (List Nat)) (pre : List Nat)
    (items : List TreeItem) (h : ∀ it ∈ items, it.children = []) :
    TreeItem.visiblePathsList opened pre items =
      items.map (fun it => pre ++ [it.identifier]) := by
  induction items with
  | nil => simp [TreeItem.visiblePathsList]
  | cons it rest ih =>
    cases it with
    | mk i t c =>
      have hc : c = [] := h (TreeItem.mk i t c) (List.mem_cons_self _ _)
      subst hc
      rw [List.map_cons]
      show TreeItem.visiblePaths opened pre (TreeItem.mk i t []) ++
          TreeItem.visiblePathsList opened pre rest = _
      rw [visiblePaths_leaf, ih (fun x hx => h x (List.mem_cons_of_mem _ hx))]
      rfl

theorem new_items_children (packets : List Packet) :
    ∀ it ∈ (App.new packets).items, it.children = [] := by
  intro it hit
  simp only [App.new, List.mem_map] at hit
  obtain ⟨p, _, rfl⟩ := hit
  rfl

theorem new_items_map_identifier (packets : List Packet) :
    (App.new packets).items.map TreeItem.identifier = List.range packets.length := by
  show (packets.enum.map (fun p => TreeItem.mk p.1 p.2.tagName [])).map
      TreeItem.identifier = _
  rw [List.map_map]
  exact List.enum_map_fst packets

theorem visible_new_items (packets : List Packet) (opened : List (List Nat)) :
    TreeItem.visiblePathsList opened [] (App.new packets).items =
      (List.range packets.length).map (fun i => [i]) := by
  rw [visiblePathsList_leaves opened [] _ (new_items_children packets),
      ← new_items_map_identifier packets, List.map_map]
  simp [Function.comp]

theorem getD_range_map (N j : Nat) :
    ((List.range N).map (fun i => [i])).getD j ([] : List Nat) =
      if j < N then [j] else [] := by
  by_cases h : j < N
  · rw [if_pos h, List.getD_eq_getElem _ _ (by simpa using h)]
    simp
  · rw [if_neg h, List.getD_eq_default]
    simpa using Nat.le_of_not_lt h

theorem selectVisibleIndex_range (s : TreeState) (N k : Nat) :
    (s.selectVisibleIndex ((List.range N).map (fun i => [i])) k).selected = [] ∨
      ∃ i, i < N ∧
        (s.selectVisibleIndex ((List.range N).map (fun i => [i])) k).selected = [i] := by
  unfold TreeState.selectVisibleIndex
  simp only [List.length_map, List.length_range]
  rcases Nat.eq_zero_or_pos N with rfl | hN
  · left
    rw [getD_range_map]
    simp
  · right
    refine ⟨min k (N - 1), by omega, ?_⟩
    rw [getD_range_map, if_pos (by omega)]

theorem key_down_selected_range (s : TreeState) (items : List TreeItem) (N : Nat)
    (hv : TreeItem.visiblePathsList s.opened [] items =
      (List.range N).map (fun i => [i])) :
    (s.key_down items).selected = [] ∨
      ∃ i, i < N ∧ (s.key_down items).selected = [i] := by
  unfold TreeState.key_down
  rw [hv]
  split <;> exact selectVisibleIndex_range s N _

theorem key_up_selected_range (s : TreeState) (items : List TreeItem) (N : Nat)
    (hv : TreeItem.visiblePathsList s.opened [] items =
      (List.range N).map (fun i => [i])) :
    (s.key_up items).selected = [] ∨
      ∃ i, i < N ∧ (s.key_up items).selected = [i] := by
  unfold TreeState.key_up
  rw [hv]
  split <;> exact selectVisibleIndex_range s N _

theorem key_left_selected (s : TreeState) (h : s.selected.length ≤ 1) :
    s.key_left.selected = s.selected := by
  by_cases h1 : s.selected ∈ s.opened
  · simp [TreeState.key_left, h1]
  · have h2 : ¬ 2 ≤ s.selected.length := by omega
    simp [TreeState.key_left, h1, h2]

theorem nodeAtList_leaves (items : List TreeItem)
    (h : ∀ it ∈ items, it.children = []) (path : List Nat) (it : TreeItem)
    (hit : nodeAtList items path = some it) : it.children = [] := by
  cases path with
  | nil => simp [nodeAtList] at hit
  | cons i rest =>
    unfold nodeAtList at hit
    cases hfind : items.find? (fun x => x.identifier = i) with
    | none =>
      rw [hfind] at hit
      exact Option.noConfusion hit
    | some found =>
      rw [hfind] at hit
      have hit2 : (if rest = [] then some found else nodeAtList found.children rest) =
          some it := hit
      have hmem : found ∈ items := List.mem_of_find?_eq_some hfind
      have hfc : found.children = [] := h found hmem
      by_cases hr : rest = []
      · rw [if_pos hr] at hit2
        cases hit2
        exact hfc
      · rw [if_neg hr, hfc] at hit2
        cases rest with
        | nil => exact absurd rfl hr
        | cons j r2 => exact Option.noConfusion hit2

theorem nodeAtList_isSome_length (items : List TreeItem)
    (h : ∀ it ∈ items, it.children = []) (path : List Nat)
    (hs : (nodeAtList items path).isSome = true) : path.length ≤ 1 := by
  cases path with
  | nil => simp
  | cons i rest =>
    cases rest with
    | nil => simp
    | cons j r2 =>
      exfalso
      unfold nodeAtList at hs
      cases hfind : items.find? (fun x => x.identifier = i) with
      | none =>
        rw [hfind] at hs
        exact Bool.noConfusion hs
      | some found =>
        rw [hfind] at hs
        have hfc : found.children = [] := h found (List.mem_of_find?_eq_some hfind)
        have hs2 : (if (j :: r2 : List Nat) = [] then some found
            else nodeAtList found.children (j :: r2)).isSome = true := hs
        rw [if_neg (by simp), hfc] at hs2
        exact Bool.noConfusion hs2

theorem key_right_leaves (s : TreeState) (items : List TreeItem)
    (h : ∀ it ∈ items, it.children = []) :
    s.key_right items = s := by
  unfold TreeState.key_right
  cases hn : nodeAtList items s.selected with
  | none => rfl
  | some it =>
    have hc := nodeAtList_leaves items h _ it hn
    simp only [hc]

theorem update_fst_items (app : App) (m : Action) :
    (app.update m).1.items = app.items := by
  cases m <;> rfl

theorem update_fst_packets (app : App) (m : Action) :
    (app.update m).1.packets = app.packets := by
  cases m <;> rfl

theorem update_snd_none (app : App) (m : Action) :
    (app.update m).2 = Action.none := by
  cases m <;> rfl

theorem update_should_quit_of_ne (app : App) (m : Action) (hm : m ≠ Action.quit) :
    (app.update m).1.should_quit = app.should_quit := by
  cases m with
  | quit => exact absurd rfl hm
  | left => rfl
  | right => rfl
  | up => rfl
  | down => rfl
  | none => rfl

theorem applyAll_packets (app : App) (msgs : List Action) :
    (app.applyAll msgs).packets = app.packets := by
  induction msgs generalizing app with
  | nil => rfl
  | cons m rest ih =>
    show (((app.update m).1).applyAll rest).packets = app.packets
    rw [ih, update_fst_packets]

theorem applyAll_should_quit_false (app : App) (msgs : List Action)
    (h : Action.quit ∉ msgs) (h0 : app.should_quit = false) :
    (app.applyAll msgs).should_quit = false := by
  induction msgs generalizing app with
  | nil => exact h0
  | cons m rest ih =>
    have hm : m ≠ Action.quit := by
      rintro rfl
      exact h (List.mem_cons_self _ _)
    show (((app.update m).1).applyAll rest).should_quit = false
    refine ih _ (fun hr => h (List.mem_cons_of_mem _ hr)) ?_
    rw [update_should_quit_of_ne app m hm]
    exact h0

theorem new_wf (packets : List Packet) : (App.new packets).wf :=
  ⟨rfl, Or.inl rfl⟩

theorem update_wf (app : App) (m : Action) (hwf : app.wf) :
    ((app.update m).1).wf := by
  obtain ⟨hitems, hsel⟩ := hwf
  have hleaves : ∀ it ∈ app.items, it.children = [] := by
    rw [hitems]
    exact new_items_children app.packets
  have hlen : app.state.selected.length ≤ 1 := by
    rcases hsel with h | ⟨i, _, h⟩ <;> simp [h]
  have hv : TreeItem.visiblePathsList app.state.opened [] app.items =
      (List.range app.packets.length).map (fun i => [i]) := by
    rw [hitems]
    exact visible_new_items app.packets app.state.opened
  cases m with
  | quit => exact ⟨hitems, hsel⟩
  | none => exact ⟨hitems, hsel⟩
  | down =>
    refine ⟨hitems, ?_⟩
    exact key_down_selected_range app.state app.items app.packets.length hv
  | up =>
    refine ⟨hitems, ?_⟩
    exact key_up_selected_range app.state app.items app.packets.length hv
  | left =>
    refine ⟨hitems, ?_⟩
    unfold App.selOk
    show app.state.key_left.selected = [] ∨
      ∃ i, i < app.packets.length ∧ app.state.key_left.selected = [i]
    rw [key_left_selected app.state hlen]
    exact hsel
  | right =>
    refine ⟨hitems, ?_⟩
    unfold App.selOk
    show (app.state.key_right app.items).selected = [] ∨
      ∃ i, i < app.packets.length ∧ (app.state.key_right app.items).selected = [i]
    rw [key_right_leaves app.state app.items hleaves]
    exact hsel

theorem applyAll_wf (app : App) (msgs : List Action) (hwf : app.wf) :
    (app.applyAll msgs).wf := by
  induction msgs generalizing app with
  | nil => exact hwf
  | cons m rest ih =>
    show (((app.update m).1).applyAll rest).wf
    exact ih _ (update_wf app m hwf)

theorem detailText_of_nil (app : App) (h : app.state.selected = []) :
    app.detailText = some "Nothing selected" := by
  simp [App.detailText, h]

theorem visibleCount_leaves (app : App)
    (h : ∀ it ∈ app.items, it.children = []) :
    app.visibleCount = app.items.length := by
  unfold App.visibleCount
  rw [visiblePathsList_leaves _ _ _ h, List.length_map]

/-! ## Claims -/

/-- C1, counterexample: with the channel closed (`recv` yields nothing) and
`should_quit` false, one iteration of the run loop does not exit: the break
flag is `false`, so the loop iterates again. -/
theorem c1_counterexample :
    (App.new []).should_quit = false ∧
      (runIter (App.new []) Option.none).2 = false :=
  ⟨rfl, rfl⟩

/-- C1 (amended): if the Action channel is closed and the termination flag is
not set, one iteration of the run loop leaves the state unchanged and
iterates again — it does not exit; the loop exits only once `should_quit` is
set. -/
theorem c1_closed_channel_iterates (app : App) (h : app.should_quit = false) :
    runIter app Option.none = (app, false) := by
  show (app, app.should_quit) = (app, false)
  rw [h]

/-- C1 witness: the amended statement at the initial state for no packets. -/
theorem c1_closed_channel_iterates_witness :
    runIter (App.new []) Option.none = (App.new [], false) :=
  c1_closed_channel_iterates (App.new []) rfl

/-- C2, counterexample: invoked with no file argument, the process does
terminate abnormally, but the panic hook runs `shutdown()`, issuing the
leave-alternate-screen and disable-raw-mode transitions — so terminal
transitions are issued during that execution. -/
theorem c2_counterexample :
    mainStartup ["pgp-dump"] =
      some { termTrace := [TermOp.leaveAltScreen, TermOp.disableRaw],
             abnormal := true } :=
  rfl

/-- C2 (amended): started with no file argument, the process terminates
abnormally with a non-zero exit status, and no enable-raw-mode or
enter-alternate-screen transition is ever issued (the panic hook does issue
the leave/disable transitions of `shutdown`). -/
theorem c2_missing_arg_aborts (args : List String)
    (h : args.get? 1 = Option.none) :
    ∃ info, mainStartup args = some info ∧ info.abnormal = true ∧
      TermOp.enableRaw ∉ info.termTrace ∧
      TermOp.enterAltScreen ∉ info.termTrace := by
  refine ⟨{ termTrace := shutdownOps, abnormal := true }, ?_, rfl,
    by decide, by decide⟩
  unfold mainStartup
  rw [h]

/-- C2 witness: the amended statement for an argument list holding only the
program name. -/
theorem c2_missing_arg_aborts_witness :
    ∃ info, mainStartup ["pgp-dump"] = some info ∧ info.abnormal = true ∧
      TermOp.enableRaw ∉ info.termTrace ∧
      TermOp.enterAltScreen ∉ info.termTrace :=
  c2_missing_arg_aborts ["pgp-dump"] rfl

/-- C3: in the flat item model (every item a leaf), for every state whose
selection is empty or resolves to an item, applying `Left` or `Right` via
the reducer leaves the visible item count and the selection path
unchanged. -/
theorem c3_left_right_noop (app : App)
    (hleaves : app.items.all (fun it => it.children.isEmpty) = true)
    (hsel : app.state.selected = [] ∨
      (nodeAtList app.items app.state.selected).isSome = true) :
    (app.update Action.left).1.visibleCount = app.visibleCount ∧
    (app.update Action.left).1.state.selected = app.state.selected ∧
    (app.update Action.right).1.visibleCount = app.visibleCount ∧
    (app.update Action.right).1.state.selected = app.state.selected := by
  have hl : ∀ it ∈ app.items, it.children = [] := by
    intro it hit
    have h1 := List.all_eq_true.mp hleaves it hit
    cases hch : it.children with
    | nil => rfl
    | cons a b =>
      rw [hch] at h1
      exact Bool.noConfusion h1
  have hlen : app.state.selected.length ≤ 1 := by
    rcases hsel with h | h
    · simp [h]
    · exact nodeAtList_isSome_length app.items hl _ h
  have hkr : app.state.key_right app.items = app.state :=
    key_right_leaves app.state app.items hl
  refine ⟨?_, key_left_selected app.state hlen, ?_, ?_⟩
  · show (TreeItem.visiblePathsList (app.state.key_left).opened [] app.items).length =
      (TreeItem.visiblePathsList app.state.opened [] app.items).length
    rw [visiblePathsList_leaves _ _ _ hl, visiblePathsList_leaves _ _ _ hl]
  · show ({ app with state := app.state.key_right app.items } : App).visibleCount =
      app.visibleCount
    rw [hkr]
  · show (app.state.key_right app.items).selected = app.state.selected
    rw [hkr]

/-- C3 witness: a one-packet app in its initial state. -/
theorem c3_left_right_noop_witness :
    ((App.new [({ tagName := "Tag", debugRepr := "Repr" } : Packet)]).update
        Action.left).1.visibleCount =
      (App.new [({ tagName := "Tag", debugRepr := "Repr" } : Packet)]).visibleCount :=
  (c3_left_right_noop (App.new [{ tagName := "Tag", debugRepr := "Repr" }])
    rfl (Or.inl rfl)).1

/-- C4: from any state reachable by reductions from the initial state, any
sequence of `Up`/`Down` actions keeps the selection's index within
`0..N-1`; and for `N = 0` the selection is empty after every reduction
sequence and the detail pane shows the placeholder text. -/
theorem c4_selection_in_range (packets : List Packet) (acts ups : List Action)
    (_hups : ∀ m ∈ ups, m = Action.up ∨ m = Action.down) :
    ((((App.new packets).applyAll acts).applyAll ups).state.selected = [] ∨
      ∃ i, i < packets.length ∧
        (((App.new packets).applyAll acts).applyAll ups).state.selected = [i]) ∧
    (packets = [] → ∀ acts2 : List Action,
      ((App.new packets).applyAll acts2).state.selected = [] ∧
      ((App.new packets).applyAll acts2).detailText = some "Nothing selected") := by
  constructor
  · have hwf := applyAll_wf _ ups (applyAll_wf _ acts (new_wf packets))
    have hsel := hwf.2
    unfold App.selOk at hsel
    rw [applyAll_packets, applyAll_packets] at hsel
    exact hsel
  · rintro rfl acts2
    have hwf := applyAll_wf _ acts2 (new_wf [])
    have hsel := hwf.2
    unfold App.selOk at hsel
    rw [applyAll_packets] at hsel
    have hnil : ((App.new ([] : List Packet)).applyAll acts2).state.selected = [] := by
      rcases hsel with h | ⟨i, hi, _⟩
      · exact h
      · exact absurd hi (Nat.not_lt_zero i)
    exact ⟨hnil, detailText_of_nil _ hnil⟩

/-- C4 witness: the empty item model after one `Down`. -/
theorem c4_selection_in_range_witness :
    ((App.new ([] : List Packet)).applyAll [Action.down]).state.selected = [] ∧
    ((App.new ([] : List Packet)).applyAll [Action.down]).detailText =
      some "Nothing selected" :=
  (c4_selection_in_range [] [] [Action.up] (by decide)).2 rfl [Action.down]

/-- C5: for every state, when the last element of the selection path is `i`
and `packets[i]` exists, the detail pane's text is the full structured
representation of `packets[i]`; with an empty selection it is the
placeholder; and selecting each index `0..N-1` in turn reproduces the
entity sequence in order. -/
theorem c5_detail_pane (app : App) (packets : List Packet) :
    (∀ i p, app.state.selected.getLast? = some i → app.packets[i]? = some p →
      app.detailText = some p.debugRepr) ∧
    (app.state.selected = [] → app.detailText = some "Nothing selected") ∧
    (List.range packets.length).map
        (fun i => App.detailText
          { App.new packets with state := { selected := [i], opened := [] } }) =
      packets.map (fun p => some p.debugRepr) := by
  refine ⟨?_, detailText_of_nil app, ?_⟩
  · intro i p h1 h2
    unfold App.detailText
    rw [h1]
    show Option.map Packet.debugRepr app.packets[i]? = some p.debugRepr
    rw [h2]
    rfl
  · apply List.ext_getElem?
    intro n
    rw [List.getElem?_map, List.getElem?_map]
    by_cases hn : n < packets.length
    · rw [List.getElem?_range hn, List.getElem?_eq_getElem hn]
      simp [App.detailText, App.new, List.getElem?_eq_getElem hn]
    · have h1 : (List.range packets.length)[n]? = Option.none :=
        List.getElem?_eq_none (by simpa using Nat.le_of_not_lt hn)
      have h2 : packets[n]? = Option.none :=
        List.getElem?_eq_none (Nat.le_of_not_lt hn)
      rw [h1, h2]
      rfl

/-- C5 witness: the initial one-packet app shows the placeholder. -/
theorem c5_detail_pane_witness :
    (App.new [({ tagName := "Tag", debugRepr := "Repr" } : Packet)]).detailText =
      some "Nothing selected" :=
  (c5_detail_pane (App.new [{ tagName := "Tag", debugRepr := "Repr" }]) []).2.1 rfl

/-- C6: every tick sends exactly one Action on the channel; a key-press maps
`'q'` to `Quit` and the arrows to `Left`/`Right`/`Up`/`Down`, any other key
to `None`; a non-press key event, a non-key event, and the absence of an
event within the tick interval each produce `None`. -/
theorem c6_input_capture (ev : Option Event) (chan : List Action) :
    (tickSend ev chan).length = chan.length + 1 ∧
    (tickSend ev chan).getLast? = some (tickAction ev) ∧
    tickAction (some (Event.key KeyEventKind.press (KeyCode.char 'q'))) =
      Action.quit ∧
    tickAction (some (Event.key KeyEventKind.press KeyCode.left)) = Action.left ∧
    tickAction (some (Event.key KeyEventKind.press KeyCode.right)) = Action.right ∧
    tickAction (some (Event.key KeyEventKind.press KeyCode.up)) = Action.up ∧
    tickAction (some (Event.key KeyEventKind.press KeyCode.down)) = Action.down ∧
    (∀ c, c ≠ 'q' →
      tickAction (some (Event.key KeyEventKind.press (KeyCode.char c))) =
        Action.none) ∧
    (∀ kind code, kind ≠ KeyEventKind.press →
      tickAction (some (Event.key kind code)) = Action.none) ∧
    tickAction (some Event.nonKey) = Action.none ∧
    tickAction Option.none = Action.none := by
  refine ⟨?_, ?_, by decide, rfl, rfl, rfl, rfl, ?_, ?_, rfl, rfl⟩
  · simp [tickSend]
  · simp [tickSend]
  · intro c hc
    simp [tickAction, actionOfCode, hc]
  · intro kind code hk
    simp [tickAction, hk]

/-- C6 witness: a tick with no event appends exactly one Action. -/
theorem c6_input_capture_witness :
    (tickSend Option.none []).length = List.length ([] : List Action) + 1 :=
  (c6_input_capture Option.none []).1

/-- C7: starting from the initial state, every sequence of Actions without
`Quit` leaves the termination flag false after each reduction; and applying
`Quit` to any state sets the termination flag on that reduction. -/
theorem c7_quit_flag (packets : List Packet) (acts : List Action)
    (hq : Action.quit ∉ acts) :
    (∀ k, ((App.new packets).applyAll (acts.take k)).should_quit = false) ∧
    (∀ app : App, (app.update Action.quit).1.should_quit = true) := by
  constructor
  · intro k
    refine applyAll_should_quit_false _ _ ?_ rfl
    intro hmem
    exact hq (List.take_subset k acts hmem)
  · intro app
    rfl

/-- C7 witness: one `Down` from the empty model leaves the flag false. -/
theorem c7_quit_flag_witness :
    ((App.new ([] : List Packet)).applyAll ([Action.down].take 1)).should_quit =
      false :=
  (c7_quit_flag [] [Action.down] (by decide)).1 1

/-- C8: applying `Quit` via the reducer sets the termination flag and changes
nothing else: selection/expansion state, items and packets are unchanged,
and the chained Action is `None`. -/
theorem c8_quit_frame (app : App) :
    (app.update Action.quit).1.should_quit = true ∧
    (app.update Action.quit).1.state = app.state ∧
    (app.update Action.quit).1.items = app.items ∧
    (app.update Action.quit).1.packets = app.packets ∧
    (app.update Action.quit).2 = Action.none :=
  ⟨rfl, rfl, rfl, rfl, rfl⟩

/-- C9: for every state and every Action, the reducer leaves the item list
and the packet list unchanged, and its chained-Action return value is always
`None`. -/
theorem c9_reducer_frame (app : App) (msg : Action) :
    (app.update msg).1.items = app.items ∧
    (app.update msg).1.packets = app.packets ∧
    (app.update msg).2 = Action.none :=
  ⟨update_fst_items app msg, update_fst_packets app msg, update_snd_none app msg⟩

/-- C10: `App::new` assigns identifier `i` to the `i`-th item, so the
identifiers are exactly `0..N-1` and pairwise distinct; hence the tree
widget's uniqueness check always succeeds and the `expect` in `draw` is
unreachable. -/
theorem c10_identifiers_unique (packets : List Packet) :
    (App.new packets).items.map TreeItem.identifier = List.range packets.length ∧
    treeNewOk (App.new packets).items := by
  refine ⟨new_items_map_identifier packets, ?_⟩
  unfold treeNewOk
  rw [new_items_map_identifier packets]
  exact List.nodup_range _

end PgpDump
